import Mathlib

/-!
Verification development for the hardware-mock simulation framework
(virtual timing engine, GPIO / I2C / SPI / UART simulators, and the
contract-verification engine), shallowly embedded from the Python sources
in src/mocks and src/contracts.

Conventions of the embedding:
* Python dicts are modelled as association lists observed only through a
  first-match lookup function; an assignment is modelled by consing the new
  binding and dropping stale ones, which is observationally equivalent.
* The timing engine works in integer microseconds; the I2C simulator works
  in integer tenths of microseconds (the START/STOP setup times 4.7 us and
  4.0 us and the bit times for all three supported bus speeds are exact in
  this unit); UART and SPI clocks are exact rationals.
* Event callbacks are modelled by a small command language (schedule a
  further event, cancel an event, raise an exception); a raised exception
  aborts the rest of that callback and is caught by the engine, exactly as
  in timing.py.
* Wall-clock performance metrics and the event-history side channels of the
  mocks are not modelled: no claim observes them.
-/

namespace HwMock

/-- First-match lookup in an association list (Python dict read). -/
def lookupL {κ α : Type} [BEq κ] (l : List (κ × α)) (k : κ) : Option α :=
  (l.find? (fun p => p.1 == k)).map (fun p => p.2)

/-- Dict assignment: bind k to v, dropping any previous binding of k.
Observationally equivalent (through lookupL) to Python dict item write. -/
def insertL {κ α : Type} [BEq κ] (l : List (κ × α)) (k : κ) (v : α) : List (κ × α) :=
  (k, v) :: l.filter (fun p => !(p.1 == k))

namespace Timing

/-- Command language for the callbacks held by scheduled events.  A
callback is a finite sequence of engine calls: schedule_event on the owning
engine, cancel_event, or raising an exception (which aborts the rest of the
callback; run_until catches it). -/
inductive Callback where
  | done : Callback
  | sched (delayUs : Int) (cb : Callback) (rest : Callback) : Callback
  | cancelEv (eventId : Nat) (rest : Callback) : Callback
  | raiseExc (rest : Callback) : Callback
deriving Repr, DecidableEq

/-- ScheduledEvent from timing.py: fire time, callback, id (ordering in the
heap compares time_us only). -/
structure ScheduledEvent where
  time_us : Int
  callback : Callback
  event_id : Nat
deriving Repr, DecidableEq

/-- TimingEngine state: the VirtualClock virtual_time_us, the pending event
heap (as a list; pops take an element of minimal time), and next_event_id. -/
structure EngineState where
  clock : Int
  events : List ScheduledEvent
  next_event_id : Nat
deriving Repr, DecidableEq

/-- VirtualClock.get_time_us. -/
def getTimeUs (s : EngineState) : Int := s.clock

/-- VirtualClock.advance_us (the real_time_factor sleep is wall-clock only). -/
def advanceUs (s : EngineState) (d : Int) : EngineState :=
  { s with clock := s.clock + d }

/-- VirtualClock.set_time_us. -/
def setTimeUs (s : EngineState) (t : Int) : EngineState :=
  { s with clock := t }

/-- TimingEngine.schedule_event: the event fires at now + delay_us; there is
no validation of delay_us.  Returns the new state and the event id. -/
def scheduleEvent (s : EngineState) (delayUs : Int) (cb : Callback) : EngineState × Nat :=
  let eventTime := s.clock + delayUs
  let eventId := s.next_event_id
  ({ s with
      events := s.events ++ [⟨eventTime, cb, eventId⟩],
      next_event_id := eventId + 1 }, eventId)

/-- TimingEngine.cancel_event: remove the first pending event with the id;
report whether one was found. -/
def cancelEvent (s : EngineState) (eventId : Nat) : EngineState × Bool :=
  if s.events.any (fun e => e.event_id == eventId) then
    ({ s with events := s.events.eraseP (fun e => e.event_id == eventId) }, true)
  else (s, false)

/-- Pop an event of minimal time_us from the queue (heapq.heappop; ties go
to the earliest listed, which refines the heap's unspecified tie order). -/
def popMin : List ScheduledEvent → Option (ScheduledEvent × List ScheduledEvent)
  | [] => none
  | e :: es =>
    match popMin es with
    | none => some (e, [])
    | some (m, rest) =>
      if e.time_us ≤ m.time_us then some (e, es) else some (m, e :: rest)

/-- Run one callback against the engine state.  Returns the new state and
whether the callback completed without raising. -/
def runCallback (s : EngineState) : Callback → EngineState × Bool
  | .done => (s, true)
  | .sched d cb rest => runCallback (scheduleEvent s d cb).1 rest
  | .cancelEv eid rest => runCallback (cancelEvent s eid).1 rest
  | .raiseExc _ => (s, false)

/-- Structural size of a callback; each sched action carries its scheduled
callback, so executing an event can only add strictly less weight than the
event held. -/
def cbWeight : Callback → Nat
  | .done => 0
  | .sched _ cb rest => 1 + cbWeight cb + cbWeight rest
  | .cancelEv _ rest => cbWeight rest
  | .raiseExc rest => cbWeight rest

/-- Weight of one queued event. -/
def eventWeight (e : ScheduledEvent) : Nat := 1 + cbWeight e.callback

/-- Total weight of a queue: a strict upper bound on how many more events a
run_until loop can pop. -/
def totalWeight (l : List ScheduledEvent) : Nat := (l.map eventWeight).sum

/-- Result of run_until: final engine state, the returned executed count,
and the execution trace.  Each trace entry records the fire time the clock
was set to before the callback ran, and whether the callback completed. -/
structure RunResult where
  state : EngineState
  executed : Nat
  trace : List (Int × Bool)
deriving Repr, DecidableEq

/-- TimingEngine.run_until, with explicit fuel.  Each loop iteration pops an
event of minimal time if it is due (time_us <= target), sets the clock to
its fire time, runs its callback (counting it only if it did not raise),
and otherwise sets the clock to exactly the target and stops.  The fuel
only bounds iterations; runUntil below supplies provably sufficient fuel. -/
def runUntilF : Nat → EngineState → Int → RunResult
  | 0, s, target => ⟨setTimeUs s target, 0, []⟩
  | fuel + 1, s, target =>
    match popMin s.events with
    | none => ⟨setTimeUs s target, 0, []⟩
    | some (e, rest) =>
      if e.time_us ≤ target then
        let s1 : EngineState := ⟨e.time_us, rest, s.next_event_id⟩
        let p := runCallback s1 e.callback
        let r := runUntilF fuel p.1 target
        ⟨r.state, (if p.2 then 1 else 0) + r.executed, (e.time_us, p.2) :: r.trace⟩
      else ⟨setTimeUs s target, 0, []⟩

/-- TimingEngine.run_until. -/
def runUntil (s : EngineState) (target : Int) : RunResult :=
  runUntilF (totalWeight s.events + 1) s target

/-- TimingEngine.run_for. -/
def runFor (s : EngineState) (d : Int) : RunResult :=
  runUntil s (s.clock + d)

/-- TimingEngine.delay_us (delegates to VirtualClock.advance_us). -/
def delayUs (s : EngineState) (d : Int) : EngineState := advanceUs s d

/-- A callback schedules only non-negative delays (recursively). -/
def Callback.nonNeg : Callback → Bool
  | .done => true
  | .sched d cb rest => decide (0 ≤ d) && cb.nonNeg && rest.nonNeg
  | .cancelEv _ rest => rest.nonNeg
  | .raiseExc rest => rest.nonNeg

/-- Every queued callback schedules only non-negative delays. -/
def eventsNonNeg (l : List ScheduledEvent) : Bool :=
  l.all (fun e => e.callback.nonNeg)

/-- The public operations of the timing engine, for reasoning about whole
operation sequences. -/
inductive TOp where
  | schedule (delayUs : Int) (cb : Callback)
  | cancelE (eventId : Nat)
  | advanceTo (target : Int)
  | advanceBy (durationUs : Int)
  | delayBy (durationUs : Int)
deriving Repr, DecidableEq

/-- State reached after one public operation. -/
def applyOp (s : EngineState) : TOp → EngineState
  | .schedule d cb => (scheduleEvent s d cb).1
  | .cancelE eid => (cancelEvent s eid).1
  | .advanceTo t => (runUntil s t).state
  | .advanceBy d => (runFor s d).state
  | .delayBy d => delayUs s d

/-- State reached after a sequence of public operations. -/
def applyOps (s : EngineState) (ops : List TOp) : EngineState :=
  ops.foldl applyOp s

/-- Argument restriction under which the clock cannot move backwards:
advance targets at or after the current time, non-negative durations. -/
def validOpB (s : EngineState) : TOp → Bool
  | .schedule _ _ => true
  | .cancelE _ => true
  | .advanceTo t => decide (s.clock ≤ t)
  | .advanceBy d => decide (0 ≤ d)
  | .delayBy d => decide (0 ≤ d)

/-- Every operation of the sequence is valid in the state it runs in. -/
def validOpsB : EngineState → List TOp → Bool
  | _, [] => true
  | s, op :: rest => validOpB s op && validOpsB (applyOp s op) rest

end Timing

namespace GPIO

/-- PinMode from gpio.py. -/
inductive PinMode where
  | input
  | output
deriving Repr, DecidableEq

/-- PinPull from gpio.py. -/
inductive PinPull where
  | off
  | down
  | up
deriving Repr, DecidableEq

/-- EdgeType from gpio.py. -/
inductive EdgeType where
  | rising
  | falling
  | both
deriving Repr, DecidableEq

/-- PinState from gpio.py (one record per configured pin). -/
structure PinState where
  mode : PinMode := .input
  value : Nat := 0
  pull : PinPull := .off
  edgeDetection : Option EdgeType := none
deriving Repr, DecidableEq

/-- EdgeEvent from gpio.py, as pushed onto the interrupt queue. -/
structure EdgeEvent where
  pin : Nat
  edgeType : EdgeType
  timestamp : Int
  value : Nat
deriving Repr, DecidableEq

/-- The MockException variants GPIOMock raises. -/
inductive GpioErr where
  | invalidPin (pin : Nat)
  | invalidMode (mode : String)
  | invalidPull (pull : String)
  | notConfigured (pin : Nat)
  | notOutputMode (pin : Nat)
  | invalidValue (value : Nat)
  | notInputMode (pin : Nat)
  | invalidEdge (edge : String)
deriving Repr, DecidableEq

/-- GPIOMock state.  All times are integer microseconds.  The per-pin
debounce_us and last_edge_time dicts and the interrupt queue are explicit;
the registered callback lists are not modelled (delivery is a background
thread; the claims observe the enqueued edge events).  The shared timing
engine clock is an input of the edge-application function rather than a
field, since the nanosecond operation latencies the mock adds to it are
observed by no claim. -/
structure GPIOState where
  pinStates : List (Nat × PinState)
  debounceUs : List (Nat × Int)
  lastEdgeTime : List (Nat × Int)
  interruptQueue : List EdgeEvent
deriving Repr, DecidableEq

/-- ASCII lower-casing of one character (str.lower on the mode strings). -/
def lowerChar (c : Char) : Char :=
  if 'A' ≤ c ∧ c ≤ 'Z' then Char.ofNat (c.toNat + 32) else c

/-- ASCII lower-casing of a string. -/
def lowerStr (s : String) : String := ⟨s.data.map lowerChar⟩

/-- PinMode(mode.lower()) — returns none where Python raises ValueError. -/
def pinModeOfString (s : String) : Option PinMode :=
  if lowerStr s = "input" then some .input
  else if lowerStr s = "output" then some .output
  else none

/-- PinPull(pull.lower()). -/
def pinPullOfString (s : String) : Option PinPull :=
  if lowerStr s = "off" then some .off
  else if lowerStr s = "down" then some .down
  else if lowerStr s = "up" then some .up
  else none

/-- EdgeType(edge.lower()). -/
def edgeTypeOfString (s : String) : Option EdgeType :=
  if lowerStr s = "rising" then some .rising
  else if lowerStr s = "falling" then some .falling
  else if lowerStr s = "both" then some .both
  else none

/-- The optional pull_up_down argument of setup: absent means PinPull.OFF. -/
def parsePullArg : Option String → Except GpioErr PinPull
  | none => .ok .off
  | some ps =>
    match pinPullOfString ps with
    | some pl => .ok pl
    | none => .error (.invalidPull ps)

/-- GPIOMock.setup: validate pin (VALID_PINS = 0..27), mode and pull, then
create/update the pin record; input pins with a pull resistor get their
value forced to match the pull. -/
def setup (g : GPIOState) (pin : Nat) (mode : String) (pullArg : Option String) :
    Except GpioErr GPIOState :=
  if pin < 28 then
    match pinModeOfString mode with
    | none => .error (.invalidMode mode)
    | some pm =>
      match parsePullArg pullArg with
      | .error e => .error e
      | .ok pl =>
        let ps0 := (lookupL g.pinStates pin).getD {}
        let ps1 := { ps0 with mode := pm, pull := pl }
        let ps2 :=
          if pm = .input then
            if pl = .up then { ps1 with value := 1 }
            else if pl = .down then { ps1 with value := 0 }
            else ps1
          else ps1
        .ok { g with pinStates := insertL g.pinStates pin ps2 }
  else .error (.invalidPin pin)

/-- GPIOMock.output: requires a configured pin in output mode and a value
in (0, 1); writes the value. -/
def output (g : GPIOState) (pin : Nat) (value : Nat) : Except GpioErr GPIOState :=
  match lookupL g.pinStates pin with
  | none => .error (.notConfigured pin)
  | some ps =>
    if ps.mode ≠ .output then .error (.notOutputMode pin)
    else if ¬(value = 0 ∨ value = 1) then .error (.invalidValue value)
    else .ok { g with pinStates := insertL g.pinStates pin { ps with value := value } }

/-- GPIOMock.input: requires a configured pin; returns its value. -/
def inputPin (g : GPIOState) (pin : Nat) : Except GpioErr Nat :=
  match lookupL g.pinStates pin with
  | none => .error (.notConfigured pin)
  | some ps => .ok ps.value

/-- GPIOMock.add_event_detect: requires a configured input pin and a valid
edge name; sets edge detection and the debounce time (bouncetime is in
milliseconds; a falsy bouncetime — absent or zero — yields debounce 0). -/
def addEventDetect (g : GPIOState) (pin : Nat) (edge : String)
    (bouncetimeMs : Option Int) : Except GpioErr GPIOState :=
  match lookupL g.pinStates pin with
  | none => .error (.notConfigured pin)
  | some ps =>
    if ps.mode ≠ .input then .error (.notInputMode pin)
    else
      match edgeTypeOfString edge with
      | none => .error (.invalidEdge edge)
      | some et =>
        let g1 := { g with pinStates := insertL g.pinStates pin { ps with edgeDetection := some et } }
        let deb : Int :=
          match bouncetimeMs with
          | some b => if b ≠ 0 then b * 1000 else 0
          | none => 0
        .ok { g1 with debounceUs := insertL g1.debounceUs pin deb }

/-- Edge-type classification inside apply_edge (old value vs new value). -/
def edgeTypeOfChange (oldV newV : Nat) : Option EdgeType :=
  if oldV = 0 ∧ newV = 1 then some .rising
  else if oldV = 1 ∧ newV = 0 then some .falling
  else none

/-- The apply_edge closure of GPIOMock.simulate_edge, run at virtual time
currentTime (its fire time when scheduled, the current time otherwise).
An edge within the pin's debounce window of the last recorded edge is
dropped before anything is mutated; otherwise the pin value is updated,
and if the value actually changed, a matching watched edge is pushed to
the interrupt queue and the edge time is recorded. -/
def applyEdge (g : GPIOState) (pin : Nat) (newValue : Nat) (currentTime : Int) :
    GPIOState :=
  let dropped : Bool :=
    match lookupL g.lastEdgeTime pin with
    | some last => decide (currentTime - last < (lookupL g.debounceUs pin).getD 0)
    | none => false
  if dropped then g
  else
    match lookupL g.pinStates pin with
    | none => g
    | some ps =>
      let g1 := { g with pinStates := insertL g.pinStates pin { ps with value := newValue } }
      match edgeTypeOfChange ps.value newValue with
      | none => g1
      | some et =>
        let g2 : GPIOState :=
          match ps.edgeDetection with
          | some det =>
            if det = EdgeType.both ∨ det = et then
              { g1 with interruptQueue := g1.interruptQueue ++ [⟨pin, et, currentTime, newValue⟩] }
            else g1
          | none => g1
        { g2 with lastEdgeTime := insertL g2.lastEdgeTime pin currentTime }

/-- GPIOMock.simulate_edge with delay_us = 0 (the immediate branch): on a
configured pin that is not in output mode, apply the edge now; output-mode
pins ignore simulated edges without error. -/
def simulateEdgeNow (g : GPIOState) (pin : Nat) (newValue : Nat) (currentTime : Int) :
    Except GpioErr GPIOState :=
  match lookupL g.pinStates pin with
  | none => .error (.notConfigured pin)
  | some ps =>
    if ps.mode ≠ .output then .ok (applyEdge g pin newValue currentTime)
    else .ok g

end GPIO

namespace I2C

/-- I2CSpeed from i2c.py. -/
inductive I2CSpeed where
  | standard
  | fast
  | fastPlus
deriving Repr, DecidableEq

/-- Bus speed in Hz. -/
def I2CSpeed.valueHz : I2CSpeed → Nat
  | .standard => 100000
  | .fast => 400000
  | .fastPlus => 1000000

/-- BusState from i2c.py. -/
inductive I2CBusState where
  | idle
  | start
  | address
  | data
  | ack
  | nack
  | stop
deriving Repr, DecidableEq

/-- The MockException variants write_read raises. -/
inductive I2CErr where
  | nackAddrWrite (addr : Nat)
  | nackDataWrite
  | nackAddrRead (addr : Nat)
deriving Repr, DecidableEq

/-- A virtual I2C device: its address and its read response (I2CDeviceMock;
write is never consulted by the bus mock, whose _send_byte ACKs all data
bytes unconditionally). -/
structure I2CDevice where
  addr : Nat
  readFn : Nat → List Nat

/-- I2CTransaction record.  Times are in tenths of microseconds, in which
unit the 4.7 us START, the 4.0 us STOP and the bit times of all three
supported speeds are exact integers. -/
structure I2CTransaction where
  address : Nat
  writeData : List Nat
  readData : List Nat
  success : Bool
  timestamp : Int
  durationTenths : Int

/-- I2CMock state (clock in tenths of microseconds). -/
structure I2CState where
  devices : List I2CDevice
  busSpeed : I2CSpeed
  busState : I2CBusState
  clockTenths : Int
  history : List I2CTransaction

/-- Python: address in self.devices. -/
def hasDevice (s : I2CState) (addr : Nat) : Bool :=
  s.devices.any (fun d => d.addr == addr)

/-- timing_engine.delay_us, in tenths of microseconds. -/
def delayTenths (s : I2CState) (d : Int) : I2CState :=
  { s with clockTenths := s.clockTenths + d }

/-- Bit time 1e6 / speed_hz in microseconds, as tenths (exact for the three
supported speeds: 100, 25 and 10 tenths). -/
def bitTimeTenths (s : I2CState) : Int :=
  10000000 / (s.busSpeed.valueHz : Int)

/-- _simulate_start_condition: 4.7 us, bus state Start. -/
def startCondition (s : I2CState) : I2CState :=
  { delayTenths s 47 with busState := .start }

/-- _simulate_repeated_start: same as START without a STOP first. -/
def repeatedStart (s : I2CState) : I2CState :=
  { delayTenths s 47 with busState := .start }

/-- _simulate_stop_condition: 4.0 us, bus state Idle. -/
def stopCondition (s : I2CState) : I2CState :=
  { delayTenths s 40 with busState := .idle }

/-- _send_byte: 8 data-bit delays plus the ACK clock; an address byte is
ACKed iff a device is registered at byte >> 1, a data byte is always ACKed. -/
def sendByte (s : I2CState) (byte : Nat) (isAddr : Bool) : I2CState × Bool :=
  let bt := bitTimeTenths s
  let s1 := delayTenths s (8 * bt)
  let s2 := delayTenths s1 bt
  if isAddr then (s2, hasDevice s2 (byte >>> 1)) else (s2, true)

/-- _send_address: address byte is (address << 1) | rw. -/
def sendAddress (s : I2CState) (addr : Nat) (read : Bool) : I2CState × Bool :=
  sendByte s ((addr <<< 1) ||| (if read then 1 else 0)) true

/-- The write-data loop of write_read: send each byte, stopping at the first
NACK (which _send_byte never produces for data bytes). -/
def sendDataBytes (s : I2CState) : List Nat → I2CState × Bool
  | [] => (s, true)
  | b :: rest =>
    let (s1, ack) := sendByte s b false
    if ack then sendDataBytes s1 rest else (s1, false)

/-- _receive_bytes: a missing device reads as all 0xFF without bus timing;
a present device returns its read response after 9 bit-times per byte. -/
def receiveBytes (s : I2CState) (addr : Nat) (len : Nat) : I2CState × List Nat :=
  if ¬hasDevice s addr then (s, List.replicate len 0xFF)
  else
    let data := ((s.devices.find? (fun d => d.addr == addr)).map (fun d => d.readFn len)).getD []
    let bt := bitTimeTenths s
    (delayTenths s (len * 9 * bt), data)

/-- The except branch of write_read: record the failed transaction and
re-raise (the bus state is left as it was at the point of failure). -/
def failTxn (s : I2CState) (t0 : Int) (addr : Nat) (wdata : List Nat) (e : I2CErr) :
    I2CState × Except I2CErr (List Nat) :=
  let dur := s.clockTenths - t0
  ({ s with history := s.history ++ [⟨addr, wdata, [], false, t0, dur⟩] }, .error e)

/-- I2CMock.write_read: START, address+W (NACK if no device), data bytes,
then for a positive read length a repeated START, address+R and the read,
then STOP; a successful transaction is recorded and the read data
returned; any NACK takes the except branch of failTxn. -/
def writeRead (s : I2CState) (addr : Nat) (wdata : List Nat) (readLen : Nat) :
    I2CState × Except I2CErr (List Nat) :=
  let t0 := s.clockTenths
  let s1 := startCondition s
  let (s2, ackW) := sendAddress s1 addr false
  if ¬ackW then failTxn s2 t0 addr wdata (.nackAddrWrite addr)
  else
    let (s3, ackD) := sendDataBytes s2 wdata
    if ¬ackD then failTxn s3 t0 addr wdata .nackDataWrite
    else if 0 < readLen then
      let s4 := repeatedStart s3
      let (s5, ackR) := sendAddress s4 addr true
      if ¬ackR then failTxn s5 t0 addr wdata (.nackAddrRead addr)
      else
        let (s6, rdata) := receiveBytes s5 addr readLen
        let s7 := stopCondition s6
        let dur := s7.clockTenths - t0
        ({ s7 with history := s7.history ++ [⟨addr, wdata, rdata, true, t0, dur⟩] }, .ok rdata)
    else
      let s7 := stopCondition s3
      let dur := s7.clockTenths - t0
      ({ s7 with history := s7.history ++ [⟨addr, wdata, [], true, t0, dur⟩] }, .ok [])

/-- I2CMock._probe_address: START, address+W, STOP; reports the ACK. -/
def probeAddress (s : I2CState) (addr : Nat) : I2CState × Bool :=
  let s1 := startCondition s
  let (s2, ack) := sendAddress s1 addr false
  let s3 := stopCondition s2
  (s3, ack)

/-- The scan loop over a list of addresses, collecting those that ACK. -/
def scanLoop (s : I2CState) : List Nat → I2CState × List Nat
  | [] => (s, [])
  | a :: rest =>
    let (s1, found) := probeAddress s a
    let (s2, foundRest) := scanLoop s1 rest
    (s2, if found then a :: foundRest else foundRest)

/-- I2CMock.scan: probe the standard address range 0x08..0x77. -/
def scan (s : I2CState) : I2CState × List Nat :=
  scanLoop s (List.range' 0x08 0x70)

end I2C

namespace UART

/-- FlowControl from uart.py. -/
inductive FlowControl where
  | none
  | hardware
  | software
deriving Repr, DecidableEq

/-- Parity from uart.py. -/
inductive Parity where
  | none
  | even
  | odd
  | mark
  | space
deriving Repr, DecidableEq

/-- UARTConfig from uart.py.  The baud rate and stop bits are modelled as
exact rationals so the per-frame transmission time is exact. -/
structure UARTConfig where
  baudrate : ℚ := 9600
  bytesize : Nat := 8
  parity : Parity := .none
  stopbits : ℚ := 1
  flowControl : FlowControl := .none
deriving Repr, DecidableEq

/-- UARTFrame from uart.py. -/
structure UARTFrame where
  data : Nat
  timestamp : ℚ
  parityError : Bool := false
  framingError : Bool := false
  breakDetected : Bool := false
deriving Repr, DecidableEq

/-- UARTMock state.  The peer link is modelled by the peer's receive buffer
(none when unconnected); the loopback flag routes transmitted frames back
to the own receive buffer. -/
structure UARTState where
  config : UARTConfig
  txBuffer : List UARTFrame
  rxBuffer : List UARTFrame
  rts : Bool := true
  cts : Bool := true
  xoffReceived : Bool := false
  bytesTransmitted : Nat := 0
  loopback : Bool := false
  peerRx : Option (List UARTFrame) := none
  clock : ℚ := 0
deriving Repr, DecidableEq

/-- UARTMock._can_transmit: hardware flow control requires CTS, software
flow control requires that no XOFF is outstanding. -/
def canTransmit (s : UARTState) : Bool :=
  match s.config.flowControl with
  | .hardware => s.cts
  | .software => !s.xoffReceived
  | .none => true

/-- Frame size in bit-times: start bit, data bits, optional parity bit, and
int(stopbits * 2) / 2 stop bits. -/
def bitsPerFrame (c : UARTConfig) : ℚ :=
  1 + (c.bytesize : ℚ) + (if c.parity = Parity.none then 0 else 1)
    + ((⌊c.stopbits * 2⌋ : ℚ) / 2)

/-- UARTMock._simulate_byte_transmission: spend the frame time on the
virtual clock. -/
def simulateByteTransmission (s : UARTState) : UARTState :=
  let bitTimeUs := 1000000 / s.config.baudrate
  let frameTimeUs := bitsPerFrame s.config * bitTimeUs
  { s with clock := s.clock + frameTimeUs }

/-- The byte loop of UARTMock.write: each byte is transmitted only while
flow control allows it (otherwise the loop breaks); a transmitted byte
spends its frame time, is appended to the TX buffer, and is routed to the
own RX buffer in loopback mode or to the peer's RX buffer if connected. -/
def writeLoop (s : UARTState) : List Nat → UARTState × Nat
  | [] => (s, 0)
  | b :: rest =>
    if canTransmit s then
      let s1 := simulateByteTransmission s
      let fr : UARTFrame := { data := b, timestamp := s1.clock }
      let s2 := { s1 with txBuffer := s1.txBuffer ++ [fr] }
      let s3 :=
        if s2.loopback then { s2 with rxBuffer := s2.rxBuffer ++ [fr] }
        else
          match s2.peerRx with
          | some pr => { s2 with peerRx := some (pr ++ [fr]) }
          | none => s2
      let s4 := { s3 with bytesTransmitted := s3.bytesTransmitted + 1 }
      let (s5, n) := writeLoop s4 rest
      (s5, n + 1)
    else (s, 0)

/-- UARTMock.write: returns the number of bytes written. -/
def write (s : UARTState) (data : List Nat) : UARTState × Nat :=
  writeLoop s data

end UART

namespace SPI

/-- SPIMode from spi.py, with its (CPOL, CPHA) value. -/
inductive SPIMode where
  | mode0
  | mode1
  | mode2
  | mode3
deriving Repr, DecidableEq

/-- CPOL component of the mode. -/
def SPIMode.cpol : SPIMode → Nat
  | .mode0 => 0
  | .mode1 => 0
  | .mode2 => 1
  | .mode3 => 1

/-- CPHA component of the mode. -/
def SPIMode.cpha : SPIMode → Nat
  | .mode0 => 0
  | .mode1 => 1
  | .mode2 => 0
  | .mode3 => 1

/-- SPIConfig from spi.py. -/
structure SPIConfig where
  speedHz : Nat := 1000000
  mode : SPIMode := .mode0
  bitsPerWord : Nat := 8
  lsbFirst : Bool := false
  csActiveHigh : Bool := false
deriving Repr, DecidableEq

/-- A virtual SPI device: its per-byte response and the selected flag kept
by select/deselect notifications. -/
structure SPIDevice where
  transferByteFn : Nat → Nat
  selected : Bool := false

/-- SPITransaction record (times in microseconds, exact rationals). -/
structure SPITransaction where
  chipSelect : Nat
  txData : List Nat
  rxData : List Nat
  timestamp : ℚ
  durationUs : ℚ

/-- The MockException _assert_cs raises while another device is selected. -/
inductive SpiErr where
  | deviceBusy
deriving Repr, DecidableEq

/-- SPIMock state. -/
structure SPIState where
  devices : List (Nat × SPIDevice)
  config : SPIConfig
  currentCs : Option Nat
  csLines : List (Nat × Nat)
  mosiLine : Nat
  misoLine : Nat
  sclkLine : Nat
  clock : ℚ
  history : List SPITransaction

/-- Set the selected flag of the device at the chip select, if any. -/
def markSelected (devs : List (Nat × SPIDevice)) (cs : Nat) (b : Bool) :
    List (Nat × SPIDevice) :=
  devs.map (fun p => if p.1 == cs then (p.1, { p.2 with selected := b }) else p)

/-- SPIMock._assert_cs: fails with DeviceBusy if a chip select is already
asserted; otherwise spends the 50 ns setup time, drives the CS line, and
notifies the device. -/
def assertCs (s : SPIState) (cs : Nat) : Except SpiErr SPIState :=
  match s.currentCs with
  | some _ => .error .deviceBusy
  | none =>
    let s1 := { s with clock := s.clock + 5 / 100 }
    let s2 := { s1 with
      csLines := insertL s1.csLines cs (if s1.config.csActiveHigh then 0 else 1),
      currentCs := some cs }
    .ok { s2 with devices := markSelected s2.devices cs true }

/-- SPIMock._deassert_cs: 50 ns hold time, release the CS line, clear
current_cs, notify the device. -/
def deassertCs (s : SPIState) (cs : Nat) : SPIState :=
  let s1 := { s with clock := s.clock + 5 / 100 }
  let s2 := { s1 with
    csLines := insertL s1.csLines cs (if s1.config.csActiveHigh then 1 else 0),
    currentCs := none }
  { s2 with devices := markSelected s2.devices cs false }

/-- One bit of SPIMock._transfer_byte: drive MOSI, run the two clock edges
spending half a bit time each, and sample MISO on the edge selected by
CPHA; without a device the line reads pulled high (1). -/
def transferBitStep (tx cs : Nat) (acc : SPIState × Nat) (bitNum : Nat) :
    SPIState × Nat :=
  let st := acc.1
  let pos := if st.config.lsbFirst then bitNum else 7 - bitNum
  let st1 := { st with mosiLine := (tx >>> pos) &&& 1 }
  let bitTimeUs := (1000000 : ℚ) / (st1.config.speedHz : ℚ)
  let cpol := st1.config.mode.cpol
  let misoBit :=
    match lookupL st1.devices cs with
    | some d => (d.transferByteFn tx >>> pos) &&& 1
    | none => 1
  if st1.config.mode.cpha = 0 then
    let stA := { st1 with sclkLine := 1 - cpol, clock := st1.clock + bitTimeUs / 2 }
    let stB := { stA with sclkLine := cpol, clock := stA.clock + bitTimeUs / 2 }
    (stB, acc.2 ||| (misoBit <<< pos))
  else
    let stA := { st1 with sclkLine := 1 - cpol, clock := st1.clock + bitTimeUs / 2 }
    let stB := { stA with sclkLine := cpol }
    let stC := { stB with clock := stB.clock + bitTimeUs / 2 }
    (stC, acc.2 ||| (misoBit <<< pos))

/-- SPIMock._transfer_byte: shift the 8 bits in the configured order. -/
def transferByteM (s : SPIState) (tx cs : Nat) : SPIState × Nat :=
  (List.range 8).foldl (transferBitStep tx cs) (s, 0)

/-- The byte loop of SPIMock.transfer. -/
def transferLoop (s : SPIState) (cs : Nat) : List Nat → SPIState × List Nat
  | [] => (s, [])
  | b :: rest =>
    let (s1, rb) := transferByteM s b cs
    let (s2, rs) := transferLoop s1 cs rest
    (s2, rb :: rs)

/-- SPIMock.transfer: assert CS, shift every byte full-duplex, deassert CS,
record the transaction; a busy bus raises DeviceBusy. -/
def transfer (s : SPIState) (txData : List Nat) (cs : Nat) :
    SPIState × Except SpiErr (List Nat) :=
  let t0 := s.clock
  match assertCs s cs with
  | .error e => (s, .error e)
  | .ok s1 =>
    let (s2, rxData) := transferLoop s1 cs txData
    let s3 := deassertCs s2 cs
    let dur := s3.clock - t0
    ({ s3 with history := s3.history ++ [⟨cs, txData, rxData, t0, dur⟩] }, .ok rxData)

end SPI

namespace Contracts

/-- The JSON-like values flowing through contract contexts (implementation
states, operation arguments, results). -/
inductive Value where
  | vStr (s : String)
  | vInt (n : Int)
  | vBool (b : Bool)
  | vNone
  | vDict (entries : List (String × Value))

/-- First-match lookup in a string-keyed entry list, defaulting to vNone
(Python dict.get). -/
def lookupV (l : List (String × Value)) (k : String) : Value :=
  (((l.find? (fun p => p.1 == k)).map (fun p => p.2)).getD .vNone)

/-- GPIOContractVerifier._get_value_from_path: walk a dotted path through
nested dicts; a missing key or a non-dict prefix yields None. -/
def getFromPath : Value → List String → Value
  | v, [] => v
  | .vDict es, p :: rest => getFromPath (lookupV es p) rest
  | _, _ :: _ => .vNone

/-- Path lookup starting from the (dict) context. -/
def getValueFromPath (path : List String) (ctx : List (String × Value)) : Value :=
  getFromPath (.vDict ctx) path

/-- The membership sets GPIOContractVerifier._check_constraint recognises
on the right of the member-of sign; any other set falls through to True. -/
inductive ValueSet where
  | highLow
  | inputOutput
  | pullModes
  | validPins
  | unknownSet
deriving Repr, DecidableEq

/-- A parsed constraint string: a membership constraint (variable path and
set), or any constraint without the member-of sign, which the checker
accepts unconditionally. -/
inductive Constraint where
  | member (path : List String) (set : ValueSet)
  | plain
deriving Repr, DecidableEq

/-- Python: value in list-of-strings (only a string can equal a string). -/
def valueInStrs (v : Value) (l : List String) : Bool :=
  match v with
  | .vStr s => l.contains s
  | _ => false

/-- GPIOContractVerifier._check_constraint. -/
def checkConstraint (c : Constraint) (ctx : List (String × Value)) : Bool :=
  match c with
  | .member path set =>
    let v := getValueFromPath path ctx
    match set with
    | .highLow => valueInStrs v ["HIGH", "LOW"]
    | .inputOutput => valueInStrs v ["INPUT", "OUTPUT"]
    | .pullModes => valueInStrs v ["PULL_UP", "PULL_DOWN", "NONE"]
    | .validPins =>
      match v with
      | .vInt n => decide (2 ≤ n ∧ n < 28)
      | _ => false
    | .unknownSet => true
  | .plain => true

/-- Timing clause of an operation spec (absent max_latency_us = no bound). -/
structure TimingSpec where
  maxLatencyUs : Option Int := none
deriving Repr, DecidableEq

/-- Per-operation contract clause. -/
structure OperationSpec where
  preconditions : List Constraint := []
  postconditions : List Constraint := []
  timing : Option TimingSpec := none
  errorsExpected : List String := []
deriving Repr, DecidableEq

/-- InterfaceContract: named operations and named invariants. -/
structure Contract where
  operations : List (String × OperationSpec) := []
  invariants : List (String × Constraint) := []
deriving Repr, DecidableEq

/-- ContractViolation (the claims observe its operation and kind). -/
structure Violation where
  operation : String
  violationType : String
deriving Repr, DecidableEq

/-- Outcome of InterfaceImplementation.execute_operation: a result value or
a raised exception, identified by its type name. -/
inductive ExecOutcome (σ : Type) where
  | ok (result : Value) (next : σ)
  | exc (excName : String) (next : σ)

/-- An implementation under verification: a state observation and an
operation executor over an abstract state type. -/
structure Impl (σ : Type) where
  getState : σ → List (String × Value)
  execOp : σ → String → List (String × Value) → ExecOutcome σ

/-- InterfaceContract.get_operation_spec (raises for unknown operations). -/
def findOp (c : Contract) (op : String) : Option OperationSpec :=
  ((c.operations.find? (fun p => p.1 == op)).map (fun p => p.2))

/-- Python dict merge with the arguments shadowing the state keys. -/
def mergeCtx (state args : List (String × Value)) : List (String × Value) :=
  args ++ state

/-- The shared shape of verify_preconditions / verify_postconditions: check
constraints in order; on the first failure append one violation of the
given kind and stop. -/
def checkFirstFail (op vt : String) (cs : List Constraint)
    (ctx : List (String × Value)) (viols : List Violation) :
    Bool × List Violation :=
  match cs with
  | [] => (true, viols)
  | c :: rest =>
    if checkConstraint c ctx then checkFirstFail op vt rest ctx viols
    else (false, viols ++ [⟨op, vt⟩])

/-- ContractVerifier.verify_invariants over the current state snapshot. -/
def verifyInvariantsL : List (String × Constraint) → List (String × Value) →
    List Violation → Bool × List Violation
  | [], _, viols => (true, viols)
  | (_, c) :: rest, stv, viols =>
    if checkConstraint c stv then verifyInvariantsL rest stv viols
    else (false, viols ++ [⟨"invariant_check", "invariant"⟩])

/-- ContractVerifier.verify_timing against the measured duration. -/
def verifyTiming (op : String) (spec : OperationSpec) (durUs : Int)
    (viols : List Violation) : Bool × List Violation :=
  match spec.timing with
  | none => (true, viols)
  | some t =>
    match t.maxLatencyUs with
    | none => (true, viols)
    | some m =>
      if m < durUs then (false, viols ++ [⟨op, "timing"⟩]) else (true, viols)

/-- The value component of execute_with_verification's return: (None,
False) after a precondition failure, (exception, True) for a declared
expected exception, or (result, all_checks_passed). -/
inductive EWVResult where
  | preFail
  | expectedExc (excName : String)
  | completed (result : Value) (ok : Bool)

/-- ContractVerifier.execute_with_verification: preconditions over merged
state and arguments (stop with (None, False) on failure), snapshot, timed
execution (re-raising exceptions not declared in the contract's errors
map), then timing, postcondition and invariant checks.  The measured
duration is wall-clock in the source and is an input here.  The Except
error carries the name of a re-raised exception (including the ValueError
of an operation the contract does not define). -/
def executeWithVerification {σ : Type} (c : Contract) (impl : Impl σ) (st : σ)
    (viols : List Violation) (op : String) (args : List (String × Value))
    (durUs : Int) : Except String (EWVResult × σ × List Violation) :=
  match findOp c op with
  | none => .error "ValueError"
  | some spec =>
    let ctx := mergeCtx (impl.getState st) args
    match checkFirstFail op "precondition" spec.preconditions ctx viols with
    | (false, viols1) => .ok (.preFail, st, viols1)
    | (true, viols1) =>
      let oldState := impl.getState st
      match impl.execOp st op args with
      | .exc name st1 =>
        if spec.errorsExpected.contains name then .ok (.expectedExc name, st1, viols1)
        else .error name
      | .ok result st1 =>
        let newState := impl.getState st1
        let tRes := verifyTiming op spec durUs viols1
        let postCtx := args ++
          [("old", Value.vDict oldState), ("new", Value.vDict newState), ("result", result)]
        let pRes := checkFirstFail op "postcondition" spec.postconditions postCtx tRes.2
        let iRes := verifyInvariantsL c.invariants (impl.getState st1) pRes.2
        .ok (.completed result (tRes.1 && pRes.1 && iRes.1), st1, iRes.2)

/-- A contract whose write operation declares no preconditions (and no
postconditions, timing bound or expected errors). -/
def freeContract : Contract := ⟨[("write", ⟨[], [], none, []⟩)], []⟩

/-- The write clause of the GPIO contract exercised by the repository's
test_contract_violation_detection: one precondition, the membership
constraint on the pin.value path. -/
def gpioWriteSpec : OperationSpec := ⟨[.member ["pin", "value"] .highLow], [], none, []⟩

/-- Contract holding only that write clause. -/
def gpioTestContract : Contract := ⟨[("write", gpioWriteSpec)], []⟩

/-- An implementation that has not executed initialize(): its state
snapshot reports initialized = false and a None current pin, exactly the
shape the contract-generated GPIO mock exposes before initialize. -/
def uninitImpl : Impl Unit :=
  ⟨fun _ => [("gpio", Value.vDict [("initialized", Value.vBool false)]),
             ("pins", Value.vDict []), ("pin", Value.vNone)],
   fun _ _ _ => .ok (Value.vStr "done") ()⟩

end Contracts

/-! Theorems about the timing engine. -/

namespace Timing

theorem popMin_eq_none {l : List ScheduledEvent} (h : popMin l = none) : l = [] := by
  cases l with
  | nil => rfl
  | cons e es =>
    exfalso
    simp only [popMin] at h
    split at h
    · exact Option.noConfusion h
    · split at h <;> exact Option.noConfusion h

theorem popMin_min : ∀ (l : List ScheduledEvent) (m : ScheduledEvent)
    (r : List ScheduledEvent), popMin l = some (m, r) →
    ∀ x ∈ l, m.time_us ≤ x.time_us := by
  intro l
  induction l with
  | nil => intro m r h; simp [popMin] at h
  | cons e es ih =>
    intro m r h x hx
    simp only [popMin] at h
    split at h
    · rename_i heq
      have hes : es = [] := popMin_eq_none heq
      subst hes
      simp only [Option.some.injEq, Prod.mk.injEq] at h
      obtain ⟨rfl, rfl⟩ := h
      rcases List.mem_cons.mp hx with rfl | hx2
      · exact le_refl _
      · simp at hx2
    · rename_i m2 rest2 heq
      split at h
      · rename_i hle
        simp only [Option.some.injEq, Prod.mk.injEq] at h
        obtain ⟨rfl, rfl⟩ := h
        rcases List.mem_cons.mp hx with rfl | hx2
        · exact le_refl _
        · exact le_trans hle (ih m2 rest2 heq x hx2)
      · rename_i hle
        simp only [Option.some.injEq, Prod.mk.injEq] at h
        obtain ⟨rfl, rfl⟩ := h
        rcases List.mem_cons.mp hx with rfl | hx2
        · exact le_of_lt (lt_of_not_le hle)
        · exact ih m2 rest2 heq x hx2

theorem popMin_perm : ∀ (l : List ScheduledEvent) (m : ScheduledEvent)
    (r : List ScheduledEvent), popMin l = some (m, r) → l.Perm (m :: r) := by
  intro l
  induction l with
  | nil => intro m r h; simp [popMin] at h
  | cons e es ih =>
    intro m r h
    simp only [popMin] at h
    split at h
    · rename_i heq
      have hes : es = [] := popMin_eq_none heq
      subst hes
      simp only [Option.some.injEq, Prod.mk.injEq] at h
      obtain ⟨rfl, rfl⟩ := h
      exact List.Perm.refl _
    · rename_i m2 rest2 heq
      split at h
      · simp only [Option.some.injEq, Prod.mk.injEq] at h
        obtain ⟨rfl, rfl⟩ := h
        exact List.Perm.refl _
      · simp only [Option.some.injEq, Prod.mk.injEq] at h
        obtain ⟨rfl, rfl⟩ := h
        exact ((ih m2 rest2 heq).cons e).trans (List.Perm.swap m2 e rest2)

theorem totalWeight_of_popMin {l : List ScheduledEvent} {m : ScheduledEvent}
    {r : List ScheduledEvent} (h : popMin l = some (m, r)) :
    totalWeight l = eventWeight m + totalWeight r := by
  have hp := popMin_perm l m r h
  unfold totalWeight
  rw [(hp.map eventWeight).sum_eq]
  simp

theorem totalWeight_sublist {l₁ l₂ : List ScheduledEvent} (h : l₁.Sublist l₂) :
    totalWeight l₁ ≤ totalWeight l₂ := by
  unfold totalWeight
  induction h with
  | slnil => exact le_refl _
  | cons a _ ih => simp only [List.map_cons, List.sum_cons]; omega
  | cons₂ a _ ih => simp only [List.map_cons, List.sum_cons]; omega

theorem scheduleEvent_events (s : EngineState) (d : Int) (cb : Callback) :
    (scheduleEvent s d cb).1.events
      = s.events ++ [⟨s.clock + d, cb, s.next_event_id⟩] := rfl

theorem scheduleEvent_clock (s : EngineState) (d : Int) (cb : Callback) :
    (scheduleEvent s d cb).1.clock = s.clock := rfl

theorem cancelEvent_clock (s : EngineState) (eid : Nat) :
    (cancelEvent s eid).1.clock = s.clock := by
  unfold cancelEvent; split <;> rfl

theorem cancelEvent_events_sublist (s : EngineState) (eid : Nat) :
    ((cancelEvent s eid).1.events).Sublist s.events := by
  unfold cancelEvent
  split
  · exact List.eraseP_sublist _
  · exact List.Sublist.refl _

theorem runCallback_clock : ∀ (cb : Callback) (s : EngineState),
    (runCallback s cb).1.clock = s.clock := by
  intro cb
  induction cb with
  | done => intro s; rfl
  | sched d cb rest ihcb ihrest =>
    intro s
    simp only [runCallback]
    rw [ihrest, scheduleEvent_clock]
  | cancelEv eid rest ihrest =>
    intro s
    simp only [runCallback]
    rw [ihrest, cancelEvent_clock]
  | raiseExc rest ih => intro s; rfl

theorem runCallback_weight : ∀ (cb : Callback) (s : EngineState),
    totalWeight (runCallback s cb).1.events ≤ totalWeight s.events + cbWeight cb := by
  intro cb
  induction cb with
  | done => intro s; simp [runCallback, cbWeight]
  | sched d cb rest ihcb ihrest =>
    intro s
    simp only [runCallback]
    refine le_trans (ihrest _) ?_
    rw [scheduleEvent_events]
    simp only [totalWeight, cbWeight, eventWeight, List.map_append, List.sum_append,
      List.map_cons, List.map_nil, List.sum_cons, List.sum_nil]
    omega
  | cancelEv eid rest ihrest =>
    intro s
    simp only [runCallback]
    refine le_trans (ihrest _) ?_
    have hsub := totalWeight_sublist (cancelEvent_events_sublist s eid)
    simp only [cbWeight]
    omega
  | raiseExc rest ih =>
    intro s
    simp only [runCallback, cbWeight]
    omega

theorem runCallback_events_inv : ∀ (cb : Callback) (s : EngineState) (t : Int),
    cb.nonNeg = true → t ≤ s.clock →
    (∀ e ∈ s.events, t ≤ e.time_us ∧ e.callback.nonNeg = true) →
    ∀ e ∈ (runCallback s cb).1.events, t ≤ e.time_us ∧ e.callback.nonNeg = true := by
  intro cb
  induction cb with
  | done => intro s t _ _ h; exact h
  | sched d cb rest ihcb ihrest =>
    intro s t hnn hc h
    simp only [Callback.nonNeg, Bool.and_eq_true, decide_eq_true_eq] at hnn
    obtain ⟨⟨hd, hcb⟩, hrest⟩ := hnn
    simp only [runCallback]
    apply ihrest _ t hrest
    · rw [scheduleEvent_clock]; exact hc
    · intro e he
      rw [scheduleEvent_events] at he
      rcases List.mem_append.mp he with h1 | h2
      · exact h e h1
      · simp only [List.mem_singleton] at h2
        subst h2
        refine ⟨?_, hcb⟩
        simp only []
        omega
  | cancelEv eid rest ihrest =>
    intro s t hnn hc h
    simp only [Callback.nonNeg] at hnn
    simp only [runCallback]
    apply ihrest _ t hnn
    · rw [cancelEvent_clock]; exact hc
    · intro e he
      exact h e ((cancelEvent_events_sublist s eid).subset he)
  | raiseExc rest ih =>
    intro s t _ _ h; exact h

theorem runUntilF_spec : ∀ (fuel : Nat) (s : EngineState) (target : Int),
    totalWeight s.events < fuel →
    (runUntilF fuel s target).state.clock = target
    ∧ (∀ e ∈ (runUntilF fuel s target).state.events, target < e.time_us)
    ∧ (runUntilF fuel s target).executed
        = ((runUntilF fuel s target).trace.filter (fun p => p.2)).length
    ∧ (∀ p ∈ (runUntilF fuel s target).trace, p.1 ≤ target) := by
  intro fuel
  induction fuel with
  | zero => intro s target h; exact absurd h (Nat.not_lt_zero _)
  | succ n ih =>
    intro s target h
    cases hpop : popMin s.events with
    | none =>
      have hnil : s.events = [] := popMin_eq_none hpop
      simp only [runUntilF, hpop]
      refine ⟨rfl, ?_, rfl, ?_⟩
      · intro e he
        rw [show (setTimeUs s target).events = s.events from rfl, hnil] at he
        simp at he
      · intro p hp; simp at hp
    | some pr =>
      obtain ⟨e, rest⟩ := pr
      by_cases hle : e.time_us ≤ target
      · have hw : totalWeight
            (runCallback ⟨e.time_us, rest, s.next_event_id⟩ e.callback).1.events < n := by
          have h1 := runCallback_weight e.callback ⟨e.time_us, rest, s.next_event_id⟩
          have h2 := totalWeight_of_popMin hpop
          simp only [eventWeight] at h2
          simp only [show (⟨e.time_us, rest, s.next_event_id⟩ : EngineState).events = rest
            from rfl] at h1
          omega
        obtain ⟨ihc, ihe, ihx, iht⟩ := ih _ target hw
        simp only [runUntilF, hpop, if_pos hle]
        refine ⟨ihc, ihe, ?_, ?_⟩
        · rw [ihx]
          cases hok : (runCallback ⟨e.time_us, rest, s.next_event_id⟩ e.callback).2 with
          | false => simp [List.filter_cons]
          | true =>
            have hlen : ∀ (tr : List (Int × Bool)),
                (List.filter (fun p => p.2) ((e.time_us, true) :: tr)).length
                  = (List.filter (fun p => p.2) tr).length + 1 := by
              intro tr; simp [List.filter_cons]
            rw [hlen, if_pos rfl]
            omega
        · intro q hq
          rcases List.mem_cons.mp hq with rfl | hq2
          · exact hle
          · exact iht q hq2
      · simp only [runUntilF, hpop, if_neg hle]
        refine ⟨rfl, ?_, rfl, ?_⟩
        · intro x hx
          have hx2 : x ∈ s.events := hx
          have hmin := popMin_min s.events e rest hpop x hx2
          omega
        · intro p hp; simp at hp

theorem runUntilF_trace_lb : ∀ (fuel : Nat) (s : EngineState) (target t : Int),
    (∀ e ∈ s.events, t ≤ e.time_us ∧ e.callback.nonNeg = true) →
    (∀ p ∈ (runUntilF fuel s target).trace, t ≤ p.1)
    ∧ List.Chain' (fun a b => a ≤ b)
        ((runUntilF fuel s target).trace.map Prod.fst) := by
  intro fuel
  induction fuel with
  | zero =>
    intro s target t _
    exact ⟨by intro p hp; simp [runUntilF] at hp, by simp [runUntilF]⟩
  | succ n ih =>
    intro s target t h
    cases hpop : popMin s.events with
    | none =>
      simp only [runUntilF, hpop]
      exact ⟨by intro p hp; simp at hp, by simp⟩
    | some pr =>
      obtain ⟨e, rest⟩ := pr
      have hperm := popMin_perm s.events e rest hpop
      have hmem : e ∈ s.events := hperm.mem_iff.mpr (List.mem_cons_self e rest)
      have het := h e hmem
      by_cases hle : e.time_us ≤ target
      · have hrest : ∀ x ∈ (⟨e.time_us, rest, s.next_event_id⟩ : EngineState).events,
            e.time_us ≤ x.time_us ∧ x.callback.nonNeg = true := by
          intro x hx
          have hxin : x ∈ s.events := hperm.mem_iff.mpr (List.mem_cons_of_mem _ hx)
          exact ⟨popMin_min s.events e rest hpop x hxin, (h x hxin).2⟩
        have hS2 := runCallback_events_inv e.callback ⟨e.time_us, rest, s.next_event_id⟩
          e.time_us het.2 (le_refl _) hrest
        obtain ⟨ihlb, ihch⟩ := ih
          (runCallback ⟨e.time_us, rest, s.next_event_id⟩ e.callback).1 target e.time_us hS2
        simp only [runUntilF, hpop, if_pos hle]
        constructor
        · intro p hp
          rcases List.mem_cons.mp hp with rfl | hp2
          · exact het.1
          · exact le_trans het.1 (ihlb p hp2)
        · rw [List.map_cons]
          apply List.chain'_cons'.mpr
          refine ⟨?_, ihch⟩
          intro y hy
          obtain ⟨q, hq, rfl⟩ := List.mem_map.mp (List.mem_of_mem_head? hy)
          exact ihlb q hq
      · simp only [runUntilF, hpop, if_neg hle]
        exact ⟨by intro p hp; simp at hp, by simp⟩

theorem runUntil_state_clock (s : EngineState) (target : Int) :
    (runUntil s target).state.clock = target :=
  (runUntilF_spec _ s target (Nat.lt_succ_self _)).1

/-- C2, counterexample.  The claim asserts that run_until pops and executes
events in increasing fire-time order, events scheduled by callbacks during
the call included.  From a queue holding one event at time 100 whose
callback schedules a new event with delay -60 (schedule_event accepts any
delay), run_until(150) executes the events at times 100 and then 40: the
execution trace is not ordered by fire time. -/
theorem c2_order_counterexample :
    ((runUntil ⟨0, [⟨100, .sched (-60) .done .done, 0⟩], 1⟩ 150).trace.map Prod.fst
      = [100, 40])
    ∧ ¬ List.Chain' (fun a b => a ≤ b)
        ((runUntil ⟨0, [⟨100, .sched (-60) .done .done, 0⟩], 1⟩ 150).trace.map Prod.fst) := by
  have h1 : ((runUntil ⟨0, [⟨100, .sched (-60) .done .done, 0⟩], 1⟩ 150).trace.map Prod.fst)
      = [100, 40] := by decide
  refine ⟨h1, ?_⟩
  rw [h1]
  intro hch
  obtain ⟨hab, _⟩ := List.chain'_cons.mp hch
  omega

/-- C2, amended: provided every queued callback schedules only non-negative
delays, run_until(target) pops and executes, in non-decreasing fire-time
order, every pending event with fire time at most target — those scheduled
by callbacks during the call included — setting the clock to each event's
fire time before running its callback (the trace records exactly those
clock values); afterwards the clock reads exactly target, every remaining
event fires strictly after target, and the returned count is the number of
executed callbacks that completed without raising. -/
theorem c2_run_until_amended (s : EngineState) (target : Int)
    (hnn : eventsNonNeg s.events = true) :
    (runUntil s target).state.clock = target
    ∧ (∀ e ∈ (runUntil s target).state.events, target < e.time_us)
    ∧ (∀ p ∈ (runUntil s target).trace, p.1 ≤ target)
    ∧ List.Chain' (fun a b => a ≤ b) ((runUntil s target).trace.map Prod.fst)
    ∧ (runUntil s target).executed
        = ((runUntil s target).trace.filter (fun p => p.2)).length := by
  obtain ⟨h1, h2, h3, h4⟩ := runUntilF_spec (totalWeight s.events + 1) s target
    (Nat.lt_succ_self _)
  refine ⟨h1, h2, h4, ?_, h3⟩
  have hall : ∀ e ∈ s.events, e.callback.nonNeg = true := by
    simpa [eventsNonNeg, List.all_eq_true] using hnn
  cases hpop : popMin s.events with
  | none =>
    have hnil : s.events = [] := popMin_eq_none hpop
    have htr : (runUntil s target).trace = [] := by
      unfold runUntil
      rw [show totalWeight s.events + 1 = totalWeight s.events + 1 from rfl]
      simp [runUntilF, hpop]
    rw [htr]
    simp
  | some pr =>
    obtain ⟨e, rest⟩ := pr
    have hbound : ∀ x ∈ s.events, e.time_us ≤ x.time_us ∧ x.callback.nonNeg = true :=
      fun x hx => ⟨popMin_min s.events e rest hpop x hx, hall x hx⟩
    exact (runUntilF_trace_lb (totalWeight s.events + 1) s target e.time_us hbound).2

/-- C2, witness for the amended theorem at a concrete engine state. -/
theorem c2_run_until_witness :
    eventsNonNeg ((⟨0, [⟨50, .sched 25 .done .done, 0⟩, ⟨100, .done, 1⟩], 2⟩ :
        EngineState)).events = true
    ∧ ((runUntil ⟨0, [⟨50, .sched 25 .done .done, 0⟩, ⟨100, .done, 1⟩], 2⟩ 120).state.clock = 120
    ∧ (∀ e ∈ (runUntil ⟨0, [⟨50, .sched 25 .done .done, 0⟩, ⟨100, .done, 1⟩], 2⟩ 120).state.events,
        (120 : Int) < e.time_us)
    ∧ (∀ p ∈ (runUntil ⟨0, [⟨50, .sched 25 .done .done, 0⟩, ⟨100, .done, 1⟩], 2⟩ 120).trace,
        p.1 ≤ (120 : Int))
    ∧ List.Chain' (fun a b => a ≤ b)
        ((runUntil ⟨0, [⟨50, .sched 25 .done .done, 0⟩, ⟨100, .done, 1⟩], 2⟩ 120).trace.map Prod.fst)
    ∧ (runUntil ⟨0, [⟨50, .sched 25 .done .done, 0⟩, ⟨100, .done, 1⟩], 2⟩ 120).executed
        = ((runUntil ⟨0, [⟨50, .sched 25 .done .done, 0⟩, ⟨100, .done, 1⟩], 2⟩ 120).trace.filter
            (fun p => p.2)).length) :=
  ⟨by decide, c2_run_until_amended _ 120 (by decide)⟩

/-- C3, counterexample.  The claim asserts that schedule(delay_us, cb) with
delay_us < 0 fails with InvalidArgument and adds no event.  The source
performs no validation: on a fresh engine, scheduling with delay -5
returns normally (event id 0) and adds one event, with fire time -5. -/
theorem c3_schedule_negative_counterexample :
    scheduleEvent ⟨0, [], 0⟩ (-5) .done = (⟨0, [⟨-5, .done, 0⟩], 1⟩, 0) := by
  decide

/-- C3, amended: schedule_event performs no validation of delay_us; for
every delay (negative ones included) it appends exactly one event with
fire time now + delay_us, returns the fresh event id, and leaves the
clock unchanged. -/
theorem c3_schedule_amended (s : EngineState) (d : Int) (cb : Callback) :
    (scheduleEvent s d cb).1.events = s.events ++ [⟨s.clock + d, cb, s.next_event_id⟩]
    ∧ (scheduleEvent s d cb).2 = s.next_event_id
    ∧ (scheduleEvent s d cb).1.clock = s.clock :=
  ⟨rfl, rfl, rfl⟩

/-- C6, counterexample.  The claim asserts the clock is monotonically
non-decreasing over every operation sequence.  After delay(100) the clock
reads 100; a subsequent advance_to(50) sets it back to 50. -/
theorem c6_monotone_counterexample :
    (applyOps ⟨0, [], 0⟩ [.delayBy 100, .advanceTo 50]).clock
      < (applyOps ⟨0, [], 0⟩ [.delayBy 100]).clock := by
  decide

theorem validOp_clock_mono (s : EngineState) (op : TOp) (h : validOpB s op = true) :
    s.clock ≤ (applyOp s op).clock := by
  cases op with
  | schedule d cb => exact le_of_eq (scheduleEvent_clock s d cb).symm
  | cancelE eid => exact le_of_eq (cancelEvent_clock s eid).symm
  | advanceTo t =>
    simp only [validOpB, decide_eq_true_eq] at h
    show s.clock ≤ (runUntil s t).state.clock
    rw [runUntil_state_clock]
    exact h
  | advanceBy d =>
    simp only [validOpB, decide_eq_true_eq] at h
    show s.clock ≤ (runFor s d).state.clock
    rw [runFor, runUntil_state_clock]
    omega
  | delayBy d =>
    simp only [validOpB, decide_eq_true_eq] at h
    show s.clock ≤ s.clock + d
    omega

theorem validOps_clock_le : ∀ (ops : List TOp) (s : EngineState),
    validOpsB s ops = true → s.clock ≤ (applyOps s ops).clock := by
  intro ops
  induction ops with
  | nil => intro s _; exact le_refl _
  | cons op rest ih =>
    intro s h
    simp only [validOpsB, Bool.and_eq_true] at h
    exact le_trans (validOp_clock_mono s op h.1) (ih _ h.2)

theorem validOpsB_append : ∀ (l₁ l₂ : List TOp) (s : EngineState),
    validOpsB s (l₁ ++ l₂) = true →
    validOpsB s l₁ = true ∧ validOpsB (applyOps s l₁) l₂ = true := by
  intro l₁
  induction l₁ with
  | nil => intro l₂ s h; exact ⟨rfl, h⟩
  | cons op rest ih =>
    intro l₂ s h
    simp only [List.cons_append, validOpsB, Bool.and_eq_true] at h
    obtain ⟨h1, h2⟩ := h
    obtain ⟨h3, h4⟩ := ih l₂ _ h2
    refine ⟨?_, h4⟩
    simp only [validOpsB, Bool.and_eq_true]
    exact ⟨h1, h3⟩

/-- C6, amended: the virtual clock never moves backwards across a sequence
of public operations provided every advance_to target is at or after the
clock at the moment of the call and every advance_by / delay amount is
non-negative; schedule and cancel never move the clock.  (With a backward
target or a negative amount — which the engine does not validate — the
clock can rewind, as the counterexample shows.) -/
theorem c6_clock_monotone_amended (s : EngineState) (ops₁ ops₂ : List TOp)
    (h : validOpsB s (ops₁ ++ ops₂) = true) :
    (applyOps s ops₁).clock ≤ (applyOps s (ops₁ ++ ops₂)).clock := by
  obtain ⟨h1, h2⟩ := validOpsB_append ops₁ ops₂ s h
  have hsplit : applyOps s (ops₁ ++ ops₂) = applyOps (applyOps s ops₁) ops₂ := by
    simp only [applyOps, List.foldl_append]
  rw [hsplit]
  exact validOps_clock_le ops₂ _ h2

/-- C6, witness for the amended theorem at a concrete operation sequence. -/
theorem c6_clock_monotone_witness :
    validOpsB ⟨0, [], 0⟩
        ([.schedule 10 .done, .advanceTo 20] ++ [.advanceBy 5, .delayBy 3]) = true
    ∧ (applyOps ⟨0, [], 0⟩ [.schedule 10 .done, .advanceTo 20]).clock
        ≤ (applyOps ⟨0, [], 0⟩
            ([.schedule 10 .done, .advanceTo 20] ++ [.advanceBy 5, .delayBy 3])).clock :=
  ⟨by decide, c6_clock_monotone_amended _ _ _ (by decide)⟩

end Timing

theorem lookupL_insertL_self {κ α : Type} [BEq κ] [LawfulBEq κ]
    (l : List (κ × α)) (k : κ) (v : α) :
    lookupL (insertL l k v) k = some v := by
  simp [lookupL, insertL]

/-! Theorems about the GPIO simulator. -/

namespace GPIO

/-- C5: on any GPIO state, for every valid pin p (0..27) and every value s
in 0/1, setup(p, output) followed by output(p, s) succeeds and a
subsequent input(p) returns s. -/
theorem c5_write_then_read_confirmed (g : GPIOState) (p s : Nat)
    (hp : p < 28) (hs : s = 0 ∨ s = 1) :
    ((setup g p "output" none).bind (fun g1 => output g1 p s)).bind
      (fun g2 => inputPin g2 p) = Except.ok s := by
  have hmode : pinModeOfString "output" = some PinMode.output := by decide
  rcases hs with rfl | rfl <;>
    simp [setup, parsePullArg, hmode, hp, output, inputPin, lookupL_insertL_self,
      Except.bind]

/-- C5, witness at pin 17, value 1, on the empty GPIO state. -/
theorem c5_write_then_read_witness :
    (17 < 28 ∧ ((1 : Nat) = 0 ∨ (1 : Nat) = 1))
    ∧ ((setup ⟨[], [], [], []⟩ 17 "output" none).bind (fun g1 => output g1 17 1)).bind
        (fun g2 => inputPin g2 17) = Except.ok 1 :=
  ⟨⟨by decide, by decide⟩,
    c5_write_then_read_confirmed ⟨[], [], [], []⟩ 17 1 (by decide) (by decide)⟩

/-- C7: on a watched input pin with debounce time D configured and no edge
recorded yet, a first value-changing edge matching the watched edge type,
applied at time t1, pushes exactly one edge event onto the interrupt
queue, and a second edge applied at any t2 with t2 - t1 < D is silently
dropped — the state is left exactly as after the first edge, whatever the
second edge's value (only elapsed time is checked). -/
theorem c7_debounce_confirmed (g : GPIOState) (pin v0 v1 v2 : Nat)
    (et det : EdgeType) (t1 t2 D : Int) (ps : PinState)
    (hps : lookupL g.pinStates pin = some ps)
    (hv0 : ps.value = v0)
    (hedge : edgeTypeOfChange v0 v1 = some et)
    (hdet : ps.edgeDetection = some det)
    (hmatch : det = EdgeType.both ∨ det = et)
    (hdeb : lookupL g.debounceUs pin = some D)
    (hlast : lookupL g.lastEdgeTime pin = none)
    (hfast : t2 - t1 < D) :
    (applyEdge g pin v1 t1).interruptQueue = g.interruptQueue ++ [⟨pin, et, t1, v1⟩]
    ∧ applyEdge (applyEdge g pin v1 t1) pin v2 t2 = applyEdge g pin v1 t1 := by
  have hA : applyEdge g pin v1 t1 =
      { g with
        pinStates := insertL g.pinStates pin { ps with value := v1 },
        interruptQueue := g.interruptQueue ++ [⟨pin, et, t1, v1⟩],
        lastEdgeTime := insertL g.lastEdgeTime pin t1 } := by
    simp only [applyEdge, hlast, hps, hv0, hedge, hdet, if_pos hmatch,
      Bool.false_eq_true, if_false]
  refine ⟨by rw [hA], ?_⟩
  rw [hA]
  simp [applyEdge, lookupL_insertL_self, hdeb, decide_eq_true hfast]

/-- C7, witness on a concrete watched pin (pin 22, debounce 10000 us,
edges at times 0 and 1000). -/
theorem c7_debounce_witness :
    ((1000 : Int) - 0 < 10000)
    ∧ ((applyEdge ⟨[(22, ⟨.input, 0, .off, some .both⟩)], [(22, 10000)], [], []⟩
          22 1 0).interruptQueue
        = ([] : List EdgeEvent) ++ [⟨22, .rising, 0, 1⟩]
    ∧ applyEdge
        (applyEdge ⟨[(22, ⟨.input, 0, .off, some .both⟩)], [(22, 10000)], [], []⟩ 22 1 0)
        22 0 1000
      = applyEdge ⟨[(22, ⟨.input, 0, .off, some .both⟩)], [(22, 10000)], [], []⟩ 22 1 0) :=
  ⟨by decide,
    c7_debounce_confirmed ⟨[(22, ⟨.input, 0, .off, some .both⟩)], [(22, 10000)], [], []⟩
      22 0 1 0 .rising .both 0 1000 10000 ⟨.input, 0, .off, some .both⟩
      (by decide) rfl (by decide) rfl (Or.inl rfl) (by decide) (by decide) (by decide)⟩

end GPIO

/-! Theorems about the I2C simulator. -/

namespace I2C

theorem startCondition_devices (s : I2CState) :
    (startCondition s).devices = s.devices := rfl

theorem sendByte_devices (s : I2CState) (b : Nat) (isAddr : Bool) :
    (sendByte s b isAddr).1.devices = s.devices := by
  unfold sendByte
  split <;> rfl

theorem sendAddress_devices (s : I2CState) (addr : Nat) (read : Bool) :
    (sendAddress s addr read).1.devices = s.devices :=
  sendByte_devices _ _ _

theorem hasDevice_congr {s s2 : I2CState} (h : s2.devices = s.devices) (addr : Nat) :
    hasDevice s2 addr = hasDevice s addr := by
  unfold hasDevice
  rw [h]

theorem sendAddress_write_ack (s : I2CState) (addr : Nat) :
    (sendAddress s addr false).2 = hasDevice s addr := by
  have hb : ((addr <<< 1) ||| 0) >>> 1 = addr := by
    rw [Nat.or_zero]
    omega
  simp [sendAddress, sendByte, hasDevice, delayTenths, hb]

theorem sendByte_busState (s : I2CState) (b : Nat) (isAddr : Bool) :
    (sendByte s b isAddr).1.busState = s.busState := by
  unfold sendByte
  split <;> rfl

/-- C1, counterexample.  The claim asserts that after the Nack raised by
write_read on an address with no device, the bus state is Idle.  On a
fresh bus, write_read(0x10, [0x00], 2) raises the Nack but leaves the bus
state Start: the except branch of write_read records the failure and
re-raises without ever simulating a STOP condition. -/
theorem c1_idle_after_nack_counterexample :
    (writeRead ⟨[], .standard, .idle, 0, []⟩ 0x10 [0x00] 2).1.busState = I2CBusState.start
    ∧ (writeRead ⟨[], .standard, .idle, 0, []⟩ 0x10 [0x00] 2).1.busState
        ≠ I2CBusState.idle := by
  constructor
  · decide
  · decide

/-- C1, amended: for every bus state and every address in [0x08, 0x77]
with no registered device, write_read raises the Nack error for the
addressing byte, and afterwards the bus state is Start, not Idle (the
failure path never issues the STOP condition; only a successful
transaction, a scan probe or a reset returns the bus to Idle). -/
theorem c1_writeRead_missing_addr_amended (s : I2CState) (addr : Nat)
    (wdata : List Nat) (readLen : Nat)
    (hlo : 0x08 ≤ addr) (hhi : addr ≤ 0x77)
    (hdev : hasDevice s addr = false) :
    (writeRead s addr wdata readLen).2 = .error (.nackAddrWrite addr)
    ∧ (writeRead s addr wdata readLen).1.busState = .start := by
  have hack : (sendAddress (startCondition s) addr false).2 = false := by
    rw [sendAddress_write_ack, hasDevice_congr (startCondition_devices s)]
    exact hdev
  constructor
  · simp only [writeRead, hack]
    simp [failTxn]
  · simp only [writeRead, hack]
    simp [failTxn, sendByte_busState, sendAddress, startCondition, delayTenths]

/-- C1, witness for the amended theorem on a fresh bus at address 0x10. -/
theorem c1_writeRead_missing_addr_witness :
    ((0x08 ≤ (0x10 : Nat)) ∧ ((0x10 : Nat) ≤ 0x77)
      ∧ hasDevice ⟨[], .standard, .idle, 0, []⟩ 0x10 = false)
    ∧ ((writeRead ⟨[], .standard, .idle, 0, []⟩ 0x10 [0x00] 2).2
        = .error (.nackAddrWrite 0x10)
    ∧ (writeRead ⟨[], .standard, .idle, 0, []⟩ 0x10 [0x00] 2).1.busState = .start) :=
  ⟨⟨by decide, by decide, by decide⟩,
    c1_writeRead_missing_addr_amended ⟨[], .standard, .idle, 0, []⟩ 0x10 [0x00] 2
      (by decide) (by decide) (by decide)⟩

theorem probeAddress_devices (s : I2CState) (a : Nat) :
    (probeAddress s a).1.devices = s.devices := by
  simp only [probeAddress, stopCondition, delayTenths]
  rw [sendAddress_devices, startCondition_devices]

theorem probeAddress_ack (s : I2CState) (a : Nat) :
    (probeAddress s a).2 = hasDevice s a := by
  simp only [probeAddress]
  rw [sendAddress_write_ack, hasDevice_congr (startCondition_devices s)]

theorem scanLoop_spec : ∀ (l : List Nat) (s : I2CState),
    (scanLoop s l).2 = l.filter (fun a => hasDevice s a) := by
  intro l
  induction l with
  | nil => intro s; rfl
  | cons a rest ih =>
    intro s
    have hdev : ∀ x, hasDevice (probeAddress s a).1 x = hasDevice s x :=
      fun x => hasDevice_congr (probeAddress_devices s a) x
    simp only [scanLoop, List.filter_cons, ih, probeAddress_ack]
    simp [hdev]

/-- C10: scan probes exactly the standard range 0x08..0x77 in ascending
order and collects the ACKed addresses, so it returns exactly the
registered device addresses within [0x08, 0x77], in strictly increasing
order; the embedding (like _probe_address, whose try/except swallows every
exception) raises nothing. -/
theorem c10_scan_confirmed (s : I2CState) :
    (scan s).2 = (List.range' 0x08 0x70).filter (fun a => hasDevice s a)
    ∧ List.Pairwise (fun a b => a < b) (scan s).2
    ∧ ∀ a : Nat, (a ∈ (scan s).2 ↔ (hasDevice s a = true ∧ 0x08 ≤ a ∧ a < 0x78)) := by
  have h1 : (scan s).2 = (List.range' 0x08 0x70).filter (fun a => hasDevice s a) :=
    scanLoop_spec _ s
  refine ⟨h1, ?_, ?_⟩
  · rw [h1]
    exact List.Pairwise.filter _ (List.pairwise_lt_range' 0x08 0x70 1 (by omega))
  · intro a
    rw [h1]
    simp only [List.mem_filter, List.mem_range'_1]
    constructor
    · rintro ⟨⟨hlo, hhi⟩, hd⟩
      exact ⟨hd, hlo, by omega⟩
    · rintro ⟨hd, hlo, hhi⟩
      exact ⟨⟨hlo, by omega⟩, hd⟩

end I2C

/-! Theorems about the UART simulator. -/

namespace UART

/-- C8: whenever flow control forbids transmission — hardware mode with
CTS deasserted, or software mode with an XOFF outstanding — write(data)
transmits nothing: it returns 0 without error and the state (its TX
buffer, its RX buffer and the peer's RX buffer included) is unchanged, so
no frame is enqueued anywhere. -/
theorem c8_blocked_write_confirmed (s : UARTState) (data : List Nat)
    (h : (s.config.flowControl = FlowControl.hardware ∧ s.cts = false)
       ∨ (s.config.flowControl = FlowControl.software ∧ s.xoffReceived = true)) :
    write s data = (s, 0)
    ∧ (write s data).1.txBuffer = s.txBuffer
    ∧ (write s data).1.rxBuffer = s.rxBuffer
    ∧ (write s data).1.peerRx = s.peerRx := by
  have hct : canTransmit s = false := by
    rcases h with ⟨hf, hc⟩ | ⟨hf, hx⟩
    · simp [canTransmit, hf, hc]
    · simp [canTransmit, hf, hx]
  have hw : write s data = (s, 0) := by
    cases data with
    | nil => rfl
    | cons b rest => simp [write, writeLoop, hct]
  exact ⟨hw, by rw [hw], by rw [hw], by rw [hw]⟩

/-- C8, witness: a hardware-flow-control UART with CTS deasserted writes
nothing of [1, 2, 3]. -/
theorem c8_blocked_write_witness :
    (((⟨⟨9600, 8, .none, 1, .hardware⟩, [], [], true, false, false, 0, false, none, 0⟩ :
        UARTState).config.flowControl = FlowControl.hardware
      ∧ (⟨⟨9600, 8, .none, 1, .hardware⟩, [], [], true, false, false, 0, false, none, 0⟩ :
        UARTState).cts = false)
      ∨ ((⟨⟨9600, 8, .none, 1, .hardware⟩, [], [], true, false, false, 0, false, none, 0⟩ :
        UARTState).config.flowControl = FlowControl.software
      ∧ (⟨⟨9600, 8, .none, 1, .hardware⟩, [], [], true, false, false, 0, false, none, 0⟩ :
        UARTState).xoffReceived = true))
    ∧ (write (⟨⟨9600, 8, .none, 1, .hardware⟩, [], [], true, false, false, 0, false, none, 0⟩ :
          UARTState) [1, 2, 3]
        = ((⟨⟨9600, 8, .none, 1, .hardware⟩, [], [], true, false, false, 0, false, none, 0⟩ :
          UARTState), 0)
    ∧ (write (⟨⟨9600, 8, .none, 1, .hardware⟩, [], [], true, false, false, 0, false, none, 0⟩ :
          UARTState) [1, 2, 3]).1.txBuffer = []
    ∧ (write (⟨⟨9600, 8, .none, 1, .hardware⟩, [], [], true, false, false, 0, false, none, 0⟩ :
          UARTState) [1, 2, 3]).1.rxBuffer = []
    ∧ (write (⟨⟨9600, 8, .none, 1, .hardware⟩, [], [], true, false, false, 0, false, none, 0⟩ :
          UARTState) [1, 2, 3]).1.peerRx = none) :=
  ⟨Or.inl ⟨rfl, rfl⟩,
    c8_blocked_write_confirmed
      ⟨⟨9600, 8, .none, 1, .hardware⟩, [], [], true, false, false, 0, false, none, 0⟩
      [1, 2, 3] (Or.inl ⟨rfl, rfl⟩)⟩

end UART

/-! Theorems about the SPI simulator. -/

namespace SPI

theorem transferBitStep_devices (tx cs : Nat) (acc : SPIState × Nat) (n : Nat) :
    (transferBitStep tx cs acc n).1.devices = acc.1.devices := by
  simp only [transferBitStep]
  split <;> rfl

theorem transferBitStep_config (tx cs : Nat) (acc : SPIState × Nat) (n : Nat) :
    (transferBitStep tx cs acc n).1.config = acc.1.config := by
  simp only [transferBitStep]
  split <;> rfl

theorem transferBitStep_rx (tx cs : Nat) (acc : SPIState × Nat) (n : Nat)
    (hdev : lookupL acc.1.devices cs = none) :
    (transferBitStep tx cs acc n).2
      = acc.2 ||| (1 <<< (if acc.1.config.lsbFirst then n else 7 - n)) := by
  simp only [transferBitStep, hdev]
  split <;> rfl

theorem transferFold_rx : ∀ (l : List Nat) (s : SPIState) (r : Nat) (tx cs : Nat),
    lookupL s.devices cs = none →
    ((l.foldl (transferBitStep tx cs) (s, r)).2
      = l.foldl (fun a n => a ||| (1 <<< (if s.config.lsbFirst then n else 7 - n))) r)
    ∧ (l.foldl (transferBitStep tx cs) (s, r)).1.devices = s.devices
    ∧ (l.foldl (transferBitStep tx cs) (s, r)).1.config = s.config := by
  intro l
  induction l with
  | nil => intro s r tx cs _; exact ⟨rfl, rfl, rfl⟩
  | cons n rest ih =>
    intro s r tx cs h
    have hd := transferBitStep_devices tx cs (s, r) n
    have hc := transferBitStep_config tx cs (s, r) n
    have hr := transferBitStep_rx tx cs (s, r) n h
    obtain ⟨ih1, ih2, ih3⟩ := ih (transferBitStep tx cs (s, r) n).1
      (transferBitStep tx cs (s, r) n).2 tx cs (by rw [hd]; exact h)
    simp only [List.foldl_cons]
    refine ⟨?_, ?_, ?_⟩
    · have h1 := ih1
      simp only [Prod.mk.eta] at h1
      simp only [hc, hr] at h1
      exact h1
    · have h2 := ih2
      simp only [Prod.mk.eta] at h2
      rw [hd] at h2
      exact h2
    · have h3 := ih3
      simp only [Prod.mk.eta] at h3
      rw [hc] at h3
      exact h3

theorem transferByteM_no_device (s : SPIState) (tx cs : Nat)
    (hdev : lookupL s.devices cs = none) :
    (transferByteM s tx cs).2 = 255
    ∧ (transferByteM s tx cs).1.devices = s.devices
    ∧ (transferByteM s tx cs).1.config = s.config := by
  obtain ⟨h1, h2, h3⟩ := transferFold_rx (List.range 8) s 0 tx cs hdev
  refine ⟨?_, h2, h3⟩
  rw [show transferByteM s tx cs = (List.range 8).foldl (transferBitStep tx cs) (s, 0)
    from rfl, h1]
  cases hl : s.config.lsbFirst
  · decide
  · decide

theorem transferLoop_no_device : ∀ (l : List Nat) (s : SPIState) (cs : Nat),
    lookupL s.devices cs = none →
    (transferLoop s cs l).2 = l.map (fun _ => 255)
    ∧ (transferLoop s cs l).1.devices = s.devices := by
  intro l
  induction l with
  | nil => intro s cs _; exact ⟨rfl, rfl⟩
  | cons b rest ih =>
    intro s cs h
    obtain ⟨hb, hd, _⟩ := transferByteM_no_device s b cs h
    obtain ⟨ih1, ih2⟩ := ih (transferByteM s b cs).1 cs (by rw [hd]; exact h)
    simp only [transferLoop, List.map_cons]
    constructor
    · rw [hb, ih1]
    · rw [ih2, hd]

theorem lookupL_markSelected_none {l : List (Nat × SPIDevice)} {cs : Nat} (b : Bool)
    (h : lookupL l cs = none) : lookupL (markSelected l cs b) cs = none := by
  induction l with
  | nil => rfl
  | cons p rest ih =>
    obtain ⟨k, d⟩ := p
    cases hkb : (k == cs) with
    | true =>
      exfalso
      simp [lookupL, List.find?_cons, hkb] at h
    | false =>
      simp only [lookupL, List.find?_cons, hkb, markSelected, List.map_cons] at h ⊢
      simp only [Bool.false_eq_true, if_false] at h ⊢
      simp only [hkb] at h ⊢
      simp only [lookupL, markSelected] at ih
      exact ih h

/-- C9: on an idle bus (no chip select asserted), transfer(tx_data, cs)
with no device registered at cs succeeds and returns one received byte per
transmitted byte, every one 0xFF — the MISO line reads pulled high. -/
theorem c9_transfer_no_device_confirmed (s : SPIState) (txData : List Nat) (cs : Nat)
    (hcs : s.currentCs = none) (hdev : lookupL s.devices cs = none) :
    (transfer s txData cs).2 = .ok (txData.map (fun _ => 255)) := by
  have hloop := transferLoop_no_device txData
    ⟨markSelected s.devices cs true, s.config, some cs,
      insertL s.csLines cs (if s.config.csActiveHigh then 0 else 1),
      s.mosiLine, s.misoLine, s.sclkLine, s.clock + 5 / 100, s.history⟩ cs
    (lookupL_markSelected_none true hdev)
  simp only [transfer, assertCs, hcs]
  exact congrArg Except.ok hloop.1

/-- C9, witness: a two-byte transfer to unpopulated chip select 0 on a
fresh bus reads back 0xFF 0xFF. -/
theorem c9_transfer_no_device_witness :
    ((⟨[], ⟨1000000, .mode0, 8, false, false⟩, none, [], 0, 0, 0, 0, []⟩ :
        SPIState).currentCs = none
      ∧ lookupL (⟨[], ⟨1000000, .mode0, 8, false, false⟩, none, [], 0, 0, 0, 0, []⟩ :
        SPIState).devices 0 = none)
    ∧ (transfer (⟨[], ⟨1000000, .mode0, 8, false, false⟩, none, [], 0, 0, 0, 0, []⟩ :
        SPIState) [0x9F, 0x00] 0).2 = .ok ([0x9F, 0x00].map (fun _ => 255)) :=
  ⟨⟨rfl, rfl⟩,
    c9_transfer_no_device_confirmed
      ⟨[], ⟨1000000, .mode0, 8, false, false⟩, none, [], 0, 0, 0, 0, []⟩
      [0x9F, 0x00] 0 rfl rfl⟩

end SPI

/-! Theorems about the contract verifier. -/

namespace Contracts

theorem checkFirstFail_of_exists (op vt : String) :
    ∀ (cs : List Constraint) (ctx : List (String × Value)) (viols : List Violation),
    (∃ c ∈ cs, checkConstraint c ctx = false) →
    checkFirstFail op vt cs ctx viols = (false, viols ++ [⟨op, vt⟩]) := by
  intro cs
  induction cs with
  | nil =>
    intro ctx viols h
    obtain ⟨c, hc, _⟩ := h
    simp at hc
  | cons c rest ih =>
    intro ctx viols h
    by_cases hc : checkConstraint c ctx = true
    · have hrest : ∃ d ∈ rest, checkConstraint d ctx = false := by
        obtain ⟨d, hd, hdf⟩ := h
        rcases List.mem_cons.mp hd with rfl | hd2
        · rw [hc] at hdf
          simp at hdf
        · exact ⟨d, hd2, hdf⟩
      simp only [checkFirstFail, if_pos hc]
      exact ih ctx viols hrest
    · simp only [checkFirstFail, if_neg hc]

/-- C4, counterexample.  The claim quantifies over every contract and
implementation, but a contract whose operation declares no preconditions
yields no Precondition violation before initialize(): against an
implementation whose state reports initialized = false, the operation is
executed, no violation is recorded and the call returns the result with
success True — not (None, False). -/
theorem c4_uninitialized_counterexample :
    executeWithVerification freeContract uninitImpl () [] "write" [] 0
      = .ok (.completed (Value.vStr "done") true, (), [])
    ∧ EWVResult.completed (Value.vStr "done") true ≠ EWVResult.preFail := by
  constructor
  · rfl
  · intro h
    exact EWVResult.noConfusion h

/-- C4, amended: execute_with_verification records a Precondition
violation and returns (None, False) exactly when some declared
precondition constraint of the invoked operation evaluates to false in
the merged pre-state/argument context.  With the repository's GPIO
contract this is what an operation invoked before initialize() produces
(the pin.value membership precondition fails on the uninitialized state),
but it is a property of the contract's preconditions, not of initialize
itself: an operation with no failing precondition proceeds normally even
before initialize(). -/
theorem c4_precondition_amended {σ : Type} (c : Contract) (impl : Impl σ) (st : σ)
    (viols : List Violation) (op : String) (args : List (String × Value)) (durUs : Int)
    (spec : OperationSpec)
    (hop : findOp c op = some spec)
    (hfail : ∃ cst ∈ spec.preconditions,
        checkConstraint cst (mergeCtx (impl.getState st) args) = false) :
    executeWithVerification c impl st viols op args durUs
      = .ok (.preFail, st, viols ++ [⟨op, "precondition"⟩]) := by
  have hcf := checkFirstFail_of_exists op "precondition" spec.preconditions
    (mergeCtx (impl.getState st) args) viols hfail
  simp only [executeWithVerification, hop, hcf]

/-- C4, witness: against the GPIO write clause, a write invoked on the
uninitialized implementation records the precondition violation and
returns (None, False). -/
theorem c4_precondition_witness :
    (findOp gpioTestContract "write" = some gpioWriteSpec
      ∧ ∃ cst ∈ gpioWriteSpec.preconditions,
          checkConstraint cst (mergeCtx (uninitImpl.getState ())
            [("pin_id", Value.vInt 17), ("value", Value.vStr "HIGH")]) = false)
    ∧ executeWithVerification gpioTestContract uninitImpl () [] "write"
        [("pin_id", Value.vInt 17), ("value", Value.vStr "HIGH")] 0
      = .ok (.preFail, (), [⟨"write", "precondition"⟩]) :=
  ⟨⟨rfl, ⟨.member ["pin", "value"] .highLow, by simp [gpioWriteSpec], rfl⟩⟩,
    c4_precondition_amended gpioTestContract uninitImpl () [] "write"
      [("pin_id", Value.vInt 17), ("value", Value.vStr "HIGH")] 0 gpioWriteSpec rfl
      ⟨.member ["pin", "value"] .highLow, by simp [gpioWriteSpec], rfl⟩⟩

end Contracts

end HwMock
